import Mathlib

set_option linter.unusedVariables false
set_option linter.unnecessarySeqFocus false

/-!
Verification of the libensemble communication core (`libensemble/comms.py`).

The embedding is a shallow state-passing translation of the generator-side
controller `CommEval`, its per-simulation `Future` objects, and the dynamic
handler dispatch of `CommHandler.process_message`.

Modelling conventions:
* history records and payloads are opaque and modelled as `Nat`;
* Python's unbounded ints are `Int`/`Nat`;
* wall-clock durations measured by `time.time()` differences are abstracted
  as an oracle of `Int` elapsed times attached to each receive attempt;
* a Python method that mutates `self` and may raise returns
  `CEState × Except PyErr _` — the state component is the object state at
  the moment of normal return *or* at the moment the exception propagates
  (Python keeps partial mutations on raise);
* the comm's inbox is an explicit list of incoming messages; a loop that
  would block forever (empty inbox while still waiting) returns `none`;
* the comm's outbox is the `outbox` field of the state (`QComm.send` appends).
-/

/-- Outgoing messages sent by the generator side (`Comm.send` tags). -/
inductive OutMsg where
  | request (hist : List Nat)
  | kill (sim_id : Nat)
  | get_history (lo hi : Nat)
  | subscribe
deriving Repr, DecidableEq

/-- Python exceptions that the modelled code can raise. -/
inductive PyErr where
  | keyError (key : Nat)
  | valueErrorUnhandled (tag : String) (payload : List Nat)
deriving Repr, DecidableEq

/-- State of one `Future` object: fields `_result`, `_killed`, `_success`. -/
structure FutureState where
  result : Option Nat
  killed : Bool
  success : Bool
deriving Repr, DecidableEq

/-- `Future.__init__`: `_result = None`, `_killed = False`, `_success = False`. -/
def Future.init : FutureState := { result := none, killed := false, success := false }

/-- `Future.cancelled`: `return self._killed`. -/
def Future.cancelled (f : FutureState) : Bool := f.killed

/-- `Future.done`: `return self._success or self._killed`. -/
def Future.done (f : FutureState) : Bool := f.success || f.killed

/-- `Future.on_result`: `self._result = result; self._success = True`. -/
def Future.on_result (f : FutureState) (r : Nat) : FutureState :=
  { f with result := some r, success := true }

/-- `Future.on_update`: `self._result = result`. -/
def Future.on_update (f : FutureState) (r : Nat) : FutureState :=
  { f with result := some r }

/-- `Future.on_killed`: `self._killed = True`. -/
def Future.on_killed (f : FutureState) : FutureState :=
  { f with killed := true }

/-- Lookup in the promise table (Python dict keyed by simulation id). -/
def dictLookup : List (Nat × FutureState) → Nat → Option FutureState
  | [], _ => none
  | (k, v) :: rest, i => if k = i then some v else dictLookup rest i

/-- Assignment `d[i] = v` on the promise table: replace the first binding of
`i`, or append a new one. -/
def dictInsert : List (Nat × FutureState) → Nat → FutureState → List (Nat × FutureState)
  | [], i, v => [(i, v)]
  | (k, w) :: rest, i, v =>
      if k = i then (i, v) :: rest else (k, w) :: dictInsert rest i v

/-- The `for s in range(lo, hi)` loop body of `CommEval.on_queued`: store a
fresh `Future` under each id in turn. -/
def insertAll (ids : List Nat) (m : List (Nat × FutureState)) : List (Nat × FutureState) :=
  ids.foldl (fun acc s => dictInsert acc s Future.init) m

/-- State of a `CommEval` controller object (plus its comm outbox). -/
structure CEState where
  sim_started : Nat
  sim_pending : Int
  workers : Int
  promises : List (Nat × FutureState)
  returning_promises : Option (List Nat)
  waiting_for_queued : Nat
  outbox : List OutMsg
deriving Repr, DecidableEq

/-- Incoming manager→generator messages of the `CommEval` vocabulary.
Tags outside this closed vocabulary are treated by the generic dispatcher
model `CommHandler.process_message` below. -/
inductive GenMsg where
  | worker (nworker : Int)
  | queued (sim_id : Nat)
  | result (sim_id : Nat) (hist : Nat)
  | update (sim_id : Nat) (hist : Nat)
  | killed (sim_id : Nat)
  | history (hist : Nat)
deriving Repr, DecidableEq

/-- `CommEval.on_worker`: `self.workers = nworker; return -1`. -/
def CommEval.on_worker (st : CEState) (nworker : Int) : CEState × Except PyErr Int :=
  ({ st with workers := nworker }, Except.ok (-1))

/-- `CommEval.on_queued`: `lo = sim_id; hi = sim_id + self.waiting_for_queued;
self.waiting_for_queued = 0`; then the range loop fills `self.promises` and
`self.returning_promises` with a fresh `Future` per id of `range(lo, hi)`,
appended in ascending order; `return -1`. -/
def CommEval.on_queued (st : CEState) (sim_id : Nat) : CEState × Except PyErr Int :=
  let lo := sim_id
  let hi := sim_id + st.waiting_for_queued
  let ids := List.range' lo (hi - lo)
  ({ st with waiting_for_queued := 0,
             returning_promises := some ids,
             promises := insertAll ids st.promises }, Except.ok (-1))

/-- `CommEval.on_result`: `self.sim_pending -= 1` happens first, then
`self.promises[sim_id].on_result(hist)` (a lookup that may raise `KeyError`),
then `return sim_id`. -/
def CommEval.on_result (st : CEState) (sim_id : Nat) (hist : Nat) : CEState × Except PyErr Int :=
  let st1 := { st with sim_pending := st.sim_pending - 1 }
  match dictLookup st1.promises sim_id with
  | none => (st1, Except.error (PyErr.keyError sim_id))
  | some promise =>
      ({ st1 with promises := dictInsert st1.promises sim_id (Future.on_result promise hist) },
       Except.ok (Int.ofNat sim_id))

/-- `CommEval.on_update`: `self.promises[sim_id].on_update(hist); return sim_id`. -/
def CommEval.on_update (st : CEState) (sim_id : Nat) (hist : Nat) : CEState × Except PyErr Int :=
  match dictLookup st.promises sim_id with
  | none => (st, Except.error (PyErr.keyError sim_id))
  | some promise =>
      ({ st with promises := dictInsert st.promises sim_id (Future.on_update promise hist) },
       Except.ok (Int.ofNat sim_id))

/-- `CommEval.on_killed`: `self.sim_pending -= 1` first, then
`self.promises[sim_id].on_killed()`, then `return sim_id`. -/
def CommEval.on_killed (st : CEState) (sim_id : Nat) : CEState × Except PyErr Int :=
  let st1 := { st with sim_pending := st.sim_pending - 1 }
  match dictLookup st1.promises sim_id with
  | none => (st1, Except.error (PyErr.keyError sim_id))
  | some promise =>
      ({ st1 with promises := dictInsert st1.promises sim_id (Future.on_killed promise) },
       Except.ok (Int.ofNat sim_id))

/-- `CommEval.on_history`: ignored, `return -1`. -/
def CommEval.on_history (st : CEState) (hist : Nat) : CEState × Except PyErr Int :=
  (st, Except.ok (-1))

/-- `CommHandler.process_message` specialised to a `CommEval` receiver: every
tag of `GenMsg` has a handler in `CommEval`'s own class dict, so dispatch
reaches the corresponding `on_<tag>` method. -/
def CommEval.process_message (st : CEState) : GenMsg → CEState × Except PyErr Int
  | GenMsg.worker n => CommEval.on_worker st n
  | GenMsg.queued i => CommEval.on_queued st i
  | GenMsg.result i h => CommEval.on_result st i h
  | GenMsg.update i h => CommEval.on_update st i h
  | GenMsg.killed i => CommEval.on_killed st i
  | GenMsg.history h => CommEval.on_history st h

/-- The `while self.waiting_for_queued > 0: self.process_message()` loop of
`CommEval.request`.  `none` means the loop blocked on an empty inbox or a
handler raised. -/
def CommEval.requestLoop : List GenMsg → CEState → Option (CEState × List GenMsg)
  | [], st =>
      if st.waiting_for_queued > 0 then none else some (st, [])
  | m :: rest, st =>
      if st.waiting_for_queued > 0 then
        match CommEval.process_message st m with
        | (st', Except.ok _) => CommEval.requestLoop rest st'
        | (_, Except.error _) => none
      else some (st, m :: rest)

/-- `CommEval.request`: bump `sim_started`/`sim_pending` by `len(hist)`, send
the `request` message, set `waiting_for_queued = len(hist)`, drive the
dispatch loop until the marker clears, then hand back and reset
`returning_promises`. -/
def CommEval.request (st : CEState) (hist : List Nat) (msgs : List GenMsg) :
    Option (CEState × List GenMsg × Option (List Nat)) :=
  let st1 := { st with
      sim_started := st.sim_started + hist.length,
      sim_pending := st.sim_pending + (hist.length : Int),
      outbox := st.outbox ++ [OutMsg.request hist],
      waiting_for_queued := hist.length }
  match CommEval.requestLoop msgs st1 with
  | none => none
  | some (st2, rest) =>
      some ({ st2 with returning_promises := none }, rest, st2.returning_promises)

/-- Outcome of `CommEval.__call__`. -/
inductive CallResult where
  | assertErr (text : String)
  | blocked
  | indexErr
  | ok (st : CEState) (rest : List GenMsg) (fut : Nat)
deriving Repr, DecidableEq

/-- `CommEval.__call__`: the two usage asserts, the positional-arity assert,
then `return self.request(O)[0]` on a batch of a single (opaque) record.
`nargs`/`nkwargs` count positional and keyword field values; `nfields` is
`len(self.gen_specs['out'])`. -/
def CommEval.call (st : CEState) (nargs nkwargs nfields : Nat) (msgs : List GenMsg) :
    CallResult :=
  if nargs ≠ 0 ∧ nkwargs ≠ 0 then
    CallResult.assertErr "Must specify simulation args by position or keyword, but not both"
  else if nargs = 0 ∧ nkwargs = 0 then
    CallResult.assertErr "Must specify simulation arguments."
  else if nargs ≠ 0 ∧ nargs ≠ nfields then
    CallResult.assertErr "Wrong number of positional arguments in sim call."
  else
    match CommEval.request st [0] msgs with
    | none => CallResult.blocked
    | some (st', rest, some (f :: _)) => CallResult.ok st' rest f
    | some (_, _, some []) => CallResult.indexErr
    | some (_, _, none) => CallResult.indexErr

/-- `CommEval.wait_all`: `while self.sim_pending > 0: self.process_message()`.
`none` means blocked on an empty inbox or a handler raised. -/
def CommEval.wait_all : List GenMsg → CEState → Option (CEState × List GenMsg)
  | [], st =>
      if 0 < st.sim_pending then none else some (st, [])
  | m :: rest, st =>
      if 0 < st.sim_pending then
        match CommEval.process_message st m with
        | (st', Except.ok _) => CommEval.wait_all rest st'
        | (_, Except.error _) => none
      else some (st, m :: rest)

/-- The controller states entered while running `CommEval.wait_all`, in order,
starting with the initial state; on a raising dispatch the state at the raise
is the last entry. -/
def CommEval.waitAllStates : List GenMsg → CEState → List CEState
  | [], st => [st]
  | m :: rest, st =>
      if 0 < st.sim_pending then
        match CommEval.process_message st m with
        | (st', Except.ok _) => st :: CommEval.waitAllStates rest st'
        | (st', Except.error _) => [st, st']
      else [st]

/-- The loop guard of `CommEval.wait_any`:
`sim_id < 0 or not self.promises[sim_id].done()`, with Python's short-circuit
`or`; `none` models the `KeyError` were `sim_id` unknown. -/
def CommEval.waitAnyGuard (st : CEState) (sim_id : Int) : Option Bool :=
  if sim_id < 0 then some true
  else
    match dictLookup st.promises sim_id.toNat with
    | none => none
    | some f => some (!Future.done f)

/-- The `while` loop of `CommEval.wait_any`, carrying the current `sim_id`. -/
def CommEval.waitAnyLoop : List GenMsg → CEState → Int → Option (CEState × List GenMsg)
  | [], st, sim_id =>
      match CommEval.waitAnyGuard st sim_id with
      | none => none
      | some true => none
      | some false => some (st, [])
  | m :: rest, st, sim_id =>
      match CommEval.waitAnyGuard st sim_id with
      | none => none
      | some false => some (st, m :: rest)
      | some true =>
          match CommEval.process_message st m with
          | (st', Except.ok r) => CommEval.waitAnyLoop rest st' r
          | (_, Except.error _) => none

/-- `CommEval.wait_any`: `sim_id = -1` then the guarded dispatch loop. -/
def CommEval.wait_any (st : CEState) (msgs : List GenMsg) : Option (CEState × List GenMsg) :=
  CommEval.waitAnyLoop msgs st (-1)

/-- `Future.cancel`: `self._ceval.send_kill(self._id)` — appends exactly one
`kill` message for this id to the outbox and touches nothing else. -/
def Future.cancel (st : CEState) (sim_id : Nat) : CEState :=
  { st with outbox := st.outbox ++ [OutMsg.kill sim_id] }

/-- `done()` of the Future stored under id `i`. -/
def doneAt (m : List (Nat × FutureState)) (i : Nat) : Bool :=
  match dictLookup m i with
  | some f => Future.done f
  | none => false

/-- `_result` of the Future stored under id `i`. -/
def resultAt (m : List (Nat × FutureState)) (i : Nat) : Option Nat :=
  match dictLookup m i with
  | some f => f.result
  | none => none

/-- `cancelled()` of the Future stored under id `i`. -/
def cancelledAt (m : List (Nat × FutureState)) (i : Nat) : Bool :=
  match dictLookup m i with
  | some f => Future.cancelled f
  | none => false

/-- The budget test `timeout is not None and timeout < 0`. -/
def timeoutNeg : Option Int → Bool
  | some t => decide (t < 0)
  | none => false

/-- `timeout -= (time.time() - tstart)` with elapsed wall time `d`
(no-op when the timeout is `None`). -/
def decBudget (t : Option Int) (d : Int) : Option Int :=
  t.map (fun x => x - d)

/-- One receive attempt inside `Future.result`: either the comm's `recv`
raised `Timeout` after `elapsed` wall time, or a message arrived after
`elapsed` wall time. -/
inductive RecvEvent where
  | tmo (elapsed : Int)
  | msg (m : GenMsg) (elapsed : Int)
deriving Repr, DecidableEq

/-- How a run of `Future.result` ends in the model. -/
inductive ResultOutcome where
  | value (r : Option Nat)
  | timeoutRaised
  | blocked
  | errored
deriving Repr, DecidableEq

/-- The polling loop of `Future.result(timeout)` for the Future with id `i`:
while not done — raise `Timeout` if the budget is negative, otherwise attempt
one `process_message(timeout)` (swallowing a `Timeout` it raises), then
decrement the budget by the elapsed wall time.  Returns the outcome, the
final controller state, and the budget passed to each attempt in order. -/
def Future.resultLoop : List RecvEvent → CEState → Nat → Option Int →
    ResultOutcome × CEState × List (Option Int)
  | [], st, i, timeout =>
      if doneAt st.promises i then (ResultOutcome.value (resultAt st.promises i), st, [])
      else if timeoutNeg timeout then (ResultOutcome.timeoutRaised, st, [])
      else (ResultOutcome.blocked, st, [])
  | e :: rest, st, i, timeout =>
      if doneAt st.promises i then (ResultOutcome.value (resultAt st.promises i), st, [])
      else if timeoutNeg timeout then (ResultOutcome.timeoutRaised, st, [])
      else
        match e with
        | RecvEvent.tmo d =>
            let r := Future.resultLoop rest st i (decBudget timeout d)
            (r.1, r.2.1, timeout :: r.2.2)
        | RecvEvent.msg m d =>
            match CommEval.process_message st m with
            | (st', Except.ok _) =>
                let r := Future.resultLoop rest st' i (decBudget timeout d)
                (r.1, r.2.1, timeout :: r.2.2)
            | (st', Except.error _) => (ResultOutcome.errored, st', [timeout])

/-- A Python class modelled for dispatch purposes: the list of the class
dicts along the method resolution order, the concrete class's own
`__dict__` first; each dict is the list of method names it defines. -/
def ownDictLookup (classDicts : List (List String)) (meth : String) : Bool :=
  match classDicts with
  | [] => false
  | d :: _ => d.contains meth

/-- Ordinary Python attribute resolution along the whole method resolution
order (what `self.on_foo` would find). -/
def mroLookup (classDicts : List (List String)) (meth : String) : Bool :=
  classDicts.any (fun d => d.contains meth)

/-- Result of one generic dispatch. -/
inductive DispatchResult where
  | handled (meth : String) (payload : List Nat)
  | raised (e : PyErr)
deriving Repr, DecidableEq

/-- `CommHandler.process_message` for an arbitrary receiver class: the
handler is looked up as `type(self).__dict__['on_' + tag]` — the concrete
class's *own* dict only; on `KeyError` the message goes to
`on_unhandled_message`, which raises `ValueError` naming the tag and
payload. -/
def CommHandler.process_message (classDicts : List (List String)) (tag : String)
    (payload : List Nat) : DispatchResult :=
  let method := "on_" ++ tag
  if ownDictLookup classDicts method then DispatchResult.handled method payload
  else DispatchResult.raised (PyErr.valueErrorUnhandled tag payload)

/-- One delivery routed to a single Future by the controller. -/
inductive Delivery where
  | update (p : Nat)
  | result (p : Nat)
  | killed
deriving Repr, DecidableEq

/-- Apply one delivery to a Future's state. -/
def applyDelivery (f : FutureState) : Delivery → FutureState
  | Delivery.update p => Future.on_update f p
  | Delivery.result p => Future.on_result f p
  | Delivery.killed => Future.on_killed f

/-- Apply a sequence of deliveries in order. -/
def applyDeliveries (f : FutureState) : List Delivery → FutureState
  | [] => f
  | d :: ds => applyDeliveries (applyDelivery f d) ds

/-- Number of terminal deliveries (`result` or `killed`) in a sequence. -/
def termCount : List Delivery → Nat
  | [] => 0
  | Delivery.update _ :: ds => termCount ds
  | Delivery.result _ :: ds => termCount ds + 1
  | Delivery.killed :: ds => termCount ds + 1

/-- Number of non-terminal Futures in the promise table. -/
def pendingCount (m : List (Nat × FutureState)) : Nat :=
  (m.filter (fun kv => !Future.done kv.2)).length

/-- Controller invariant between dispatch loops: `sim_pending` equals the
number of non-terminal tracked Futures, and no batch awaits acknowledgment. -/
def ctrlInv (st : CEState) : Prop :=
  st.sim_pending = (pendingCount st.promises : Int) ∧ st.waiting_for_queued = 0

/-- Id `i` is tracked and its Future is not yet terminal. -/
def pendingIn (m : List (Nat × FutureState)) (i : Nat) : Bool :=
  match dictLookup m i with
  | some f => !Future.done f
  | none => false

/-- Ids of the terminal (`result`/`killed`) messages of a trace, in order. -/
def termIds : List GenMsg → List Nat
  | [] => []
  | GenMsg.result i _ :: rest => i :: termIds rest
  | GenMsg.killed i :: rest => i :: termIds rest
  | _ :: rest => termIds rest

/-- The at-most-one-terminal-delivery-per-id precondition: the terminal
messages of the trace target pairwise distinct ids, each tracked and still
pending at the start. -/
def termOk (m : List (Nat × FutureState)) (msgs : List GenMsg) : Prop :=
  (termIds msgs).Nodup ∧ ∀ i ∈ termIds msgs, pendingIn m i = true

/-- An empty controller state, used to instantiate witnesses. -/
def st0 : CEState :=
  { sim_started := 0, sim_pending := 0, workers := 0, promises := [],
    returning_promises := none, waiting_for_queued := 0, outbox := [] }

/-- A controller state tracking one pending Future with id 3. -/
def stOne : CEState :=
  { sim_started := 1, sim_pending := 1, workers := 0,
    promises := [(3, Future.init)],
    returning_promises := none, waiting_for_queued := 0, outbox := [] }

theorem dictLookup_dictInsert (m : List (Nat × FutureState)) (i j : Nat) (v : FutureState) :
    dictLookup (dictInsert m i v) j = if i = j then some v else dictLookup m j := by
  induction m with
  | nil => simp [dictInsert, dictLookup]
  | cons kw rest ih =>
      obtain ⟨k, w⟩ := kw
      by_cases hki : k = i
      · subst hki
        simp only [dictInsert, if_pos rfl, dictLookup]
        by_cases hij : k = j <;> simp [hij]
      · simp only [dictInsert, if_neg hki, dictLookup]
        by_cases hkj : k = j
        · subst hkj
          have : ¬ i = k := fun h => hki h.symm
          simp [this]
        · simp [hkj, ih]

theorem insertAll_cons (a : Nat) (as : List Nat) (m : List (Nat × FutureState)) :
    insertAll (a :: as) m = insertAll as (dictInsert m a Future.init) := rfl

theorem dictLookup_insertAll_not_mem (ids : List Nat) (m : List (Nat × FutureState)) (i : Nat)
    (h : i ∉ ids) : dictLookup (insertAll ids m) i = dictLookup m i := by
  induction ids generalizing m with
  | nil => rfl
  | cons a as ih =>
      rw [insertAll_cons, ih _ (fun hmem => h (List.mem_cons_of_mem a hmem)),
        dictLookup_dictInsert]
      have : ¬ a = i := fun hai => h (hai ▸ List.mem_cons_self a as)
      simp [this]

theorem dictLookup_insertAll_mem (ids : List Nat) (m : List (Nat × FutureState)) (i : Nat)
    (h : i ∈ ids) : dictLookup (insertAll ids m) i = some Future.init := by
  induction ids generalizing m with
  | nil => cases h
  | cons a as ih =>
      rw [insertAll_cons]
      by_cases hmem : i ∈ as
      · exact ih _ hmem
      · have hai : i = a := by
          rcases List.mem_cons.mp h with h' | h'
          · exact h'
          · exact absurd h' hmem
        rw [dictLookup_insertAll_not_mem as _ i hmem, dictLookup_dictInsert]
        simp [hai]

/-- Claim C2: dispatching a message whose tag has no registered handler on the
receiving object's concrete class raises a `ValueError` carrying the unmatched
tag and payload; the dispatch never returns normally, so no message is
silently dropped. -/
theorem C2_unhandled_tag_raises (classDicts : List (List String)) (tag : String)
    (payload : List Nat) (h : ownDictLookup classDicts ("on_" ++ tag) = false) :
    CommHandler.process_message classDicts tag payload =
      DispatchResult.raised (PyErr.valueErrorUnhandled tag payload) ∧
    ∀ meth pl, CommHandler.process_message classDicts tag payload ≠
      DispatchResult.handled meth pl := by
  unfold CommHandler.process_message
  simp [h]

/-- Witness for C2 at a concrete class and tag. -/
theorem C2_unhandled_tag_raises_witness :
    CommHandler.process_message [["on_request", "on_kill"]] "stop" [7] =
      DispatchResult.raised (PyErr.valueErrorUnhandled "stop" [7]) ∧
    ∀ meth pl, CommHandler.process_message [["on_request", "on_kill"]] "stop" [7] ≠
      DispatchResult.handled meth pl :=
  C2_unhandled_tag_raises [["on_request", "on_kill"]] "stop" [7] (by decide)

/-- Claim C9: handler resolution reads only the concrete class's own class
dict, so a handler defined on a base class but not redefined on the concrete
class is not found: the message is routed to `on_unhandled_message` and raises
`ValueError` instead of invoking the inherited handler. -/
theorem C9_own_dict_only (classDicts : List (List String)) (tag : String)
    (payload : List Nat)
    (hOwn : ownDictLookup classDicts ("on_" ++ tag) = false)
    (hInh : mroLookup classDicts ("on_" ++ tag) = true) :
    CommHandler.process_message classDicts tag payload =
      DispatchResult.raised (PyErr.valueErrorUnhandled tag payload) ∧
    ∀ meth pl, CommHandler.process_message classDicts tag payload ≠
      DispatchResult.handled meth pl := by
  unfold CommHandler.process_message
  simp [hOwn]

/-- Witness for C9: `on_worker` lives only on the base class dict, and the
`worker` message raises instead of dispatching to it. -/
theorem C9_own_dict_only_witness :
    CommHandler.process_message [["on_result"], ["on_worker"]] "worker" [4] =
      DispatchResult.raised (PyErr.valueErrorUnhandled "worker" [4]) ∧
    ∀ meth pl, CommHandler.process_message [["on_result"], ["on_worker"]] "worker" [4] ≠
      DispatchResult.handled meth pl :=
  C9_own_dict_only [["on_result"], ["on_worker"]] "worker" [4] (by decide) (by decide)

/-- Claim C10: dispatching `result`/`killed` for an id absent from the promise
table raises `KeyError`, and the error path is not atomic: `sim_pending` was
already decremented before the failing lookup, so the state is left with
`sim_pending` one lower than before the dispatch. -/
theorem C10_missing_id_keyerror (st : CEState) (i : Nat) (h : Nat)
    (habs : dictLookup st.promises i = none) :
    CommEval.process_message st (GenMsg.result i h) =
      ({ st with sim_pending := st.sim_pending - 1 }, Except.error (PyErr.keyError i)) ∧
    CommEval.process_message st (GenMsg.killed i) =
      ({ st with sim_pending := st.sim_pending - 1 }, Except.error (PyErr.keyError i)) := by
  constructor
  · show CommEval.on_result st i h = _
    unfold CommEval.on_result
    simp [habs]
  · show CommEval.on_killed st i = _
    unfold CommEval.on_killed
    simp [habs]

/-- Witness for C10 at the empty controller: a stray `result 9` leaves
`sim_pending = -1`. -/
theorem C10_missing_id_keyerror_witness :
    CommEval.process_message st0 (GenMsg.result 9 0) =
      ({ st0 with sim_pending := st0.sim_pending - 1 }, Except.error (PyErr.keyError 9)) ∧
    CommEval.process_message st0 (GenMsg.killed 9) =
      ({ st0 with sim_pending := st0.sim_pending - 1 }, Except.error (PyErr.keyError 9)) :=
  C10_missing_id_keyerror st0 9 0 (by decide)

theorem termCount_append (a b : List Delivery) :
    termCount (a ++ b) = termCount a + termCount b := by
  induction a with
  | nil => simp [termCount]
  | cons d ds ih => cases d <;> simp [termCount, ih] <;> omega

theorem applyDeliveries_append (f : FutureState) (a b : List Delivery) :
    applyDeliveries f (a ++ b) = applyDeliveries (applyDeliveries f a) b := by
  induction a generalizing f with
  | nil => rfl
  | cons d ds ih => simp [applyDeliveries, ih]

theorem applyDeliveries_flags_of_no_term (ds : List Delivery) (f : FutureState)
    (h : termCount ds = 0) :
    (applyDeliveries f ds).success = f.success ∧ (applyDeliveries f ds).killed = f.killed := by
  induction ds generalizing f with
  | nil => exact ⟨rfl, rfl⟩
  | cons d ds ih =>
      cases d with
      | update p =>
          have h' : termCount ds = 0 := h
          exact ih (Future.on_update f p) h'
      | result p => simp [termCount] at h
      | killed => simp [termCount] at h

theorem applyDeliveries_atMostOne (ds : List Delivery) (f : FutureState)
    (hone : ¬(f.success = true ∧ f.killed = true))
    (hbound : termCount ds + (if Future.done f then 1 else 0) ≤ 1) :
    ¬((applyDeliveries f ds).success = true ∧ (applyDeliveries f ds).killed = true) := by
  induction ds generalizing f with
  | nil => exact hone
  | cons d ds ih =>
      cases d with
      | update p =>
          apply ih (Future.on_update f p)
          · simpa [Future.on_update] using hone
          · simpa [Future.on_update, Future.done, termCount] using hbound
      | result p =>
          have hdone : Future.done f = false := by
            cases hd' : Future.done f
            · rfl
            · rw [hd'] at hbound
              simp [termCount] at hbound
          have hkill : f.killed = false := by
            cases hk : f.killed
            · rfl
            · simp [Future.done, hk] at hdone
          have ht : termCount ds = 0 := by
            simp [termCount, hdone] at hbound
            omega
          apply ih (Future.on_result f p)
          · simp [Future.on_result, hkill]
          · simp [Future.on_result, Future.done, ht]
      | killed =>
          have hdone : Future.done f = false := by
            cases hd' : Future.done f
            · rfl
            · rw [hd'] at hbound
              simp [termCount] at hbound
          have hsucc : f.success = false := by
            cases hs : f.success
            · rfl
            · simp [Future.done, hs] at hdone
          have ht : termCount ds = 0 := by
            simp [termCount, hdone] at hbound
            omega
          apply ih (Future.on_killed f)
          · simp [Future.on_killed, hsucc]
          · simp [Future.on_killed, Future.done, ht]

theorem done_applyDeliveries_term (ds : List Delivery) (f : FutureState)
    (hf : Future.done f = false) (hd : Future.done (applyDeliveries f ds) = true) :
    1 ≤ termCount ds := by
  by_contra hlt
  have h0 : termCount ds = 0 := by omega
  obtain ⟨hs, hk⟩ := applyDeliveries_flags_of_no_term ds f h0
  simp [Future.done, hs, hk] at hd
  simp [Future.done] at hf
  obtain ⟨hs', hk'⟩ := hf
  rcases hd with hd | hd
  · rw [hd] at hs'; cases hs'
  · rw [hd] at hk'; cases hk'

/-- Counterexample to claim C6 as stated: a `result` delivery followed by a
`killed` delivery (a duplicated terminal, which the code never re-validates)
leaves both the succeeded flag and the killed flag set. -/
theorem C6_counterexample :
    (applyDeliveries Future.init [Delivery.result 3, Delivery.killed]).success = true ∧
    (applyDeliveries Future.init [Delivery.result 3, Delivery.killed]).killed = true := by
  decide

/-- Claim C6 (amended): over any delivery sequence containing at most one
terminal delivery (`result` or `killed`) — the manager contract — at most one
of the succeeded/killed flags is ever set; and once either flag is set after
some prefix, the flags never change over the remainder of the sequence and
`done()` stays true. -/
theorem C6_amended_flags (ds a b : List Delivery) (hsplit : ds = a ++ b)
    (hterm : termCount ds ≤ 1) :
    ¬((applyDeliveries Future.init ds).success = true ∧
      (applyDeliveries Future.init ds).killed = true) ∧
    (Future.done (applyDeliveries Future.init a) = true →
      (applyDeliveries Future.init ds).success = (applyDeliveries Future.init a).success ∧
      (applyDeliveries Future.init ds).killed = (applyDeliveries Future.init a).killed ∧
      Future.done (applyDeliveries Future.init ds) = true) := by
  constructor
  · apply applyDeliveries_atMostOne ds Future.init
    · simp [Future.init]
    · simp [Future.init, Future.done]
      omega
  · intro hda
    have hinit : Future.done Future.init = false := by decide
    have ha1 : 1 ≤ termCount a := done_applyDeliveries_term a Future.init hinit hda
    have hb0 : termCount b = 0 := by
      rw [hsplit, termCount_append] at hterm
      omega
    obtain ⟨hs, hk⟩ :=
      applyDeliveries_flags_of_no_term b (applyDeliveries Future.init a) hb0
    rw [hsplit, applyDeliveries_append]
    refine ⟨hs, hk, ?_⟩
    simp only [Future.done] at hda ⊢
    rw [hs, hk]
    exact hda

/-- Witness for C6 (amended) on the concrete sequence update–result. -/
theorem C6_amended_flags_witness :
    ¬((applyDeliveries Future.init [Delivery.update 1, Delivery.result 2]).success = true ∧
      (applyDeliveries Future.init [Delivery.update 1, Delivery.result 2]).killed = true) ∧
    (Future.done (applyDeliveries Future.init [Delivery.update 1, Delivery.result 2]) = true →
      (applyDeliveries Future.init [Delivery.update 1, Delivery.result 2]).success =
        (applyDeliveries Future.init [Delivery.update 1, Delivery.result 2]).success ∧
      (applyDeliveries Future.init [Delivery.update 1, Delivery.result 2]).killed =
        (applyDeliveries Future.init [Delivery.update 1, Delivery.result 2]).killed ∧
      Future.done (applyDeliveries Future.init [Delivery.update 1, Delivery.result 2]) = true) :=
  C6_amended_flags [Delivery.update 1, Delivery.result 2]
    [Delivery.update 1, Delivery.result 2] [] (by decide) (by decide)

/-- Claim C7: `Future.cancel()` appends exactly one `kill(id)` message for the
Future's own id to the outbox and changes no other controller or Future state;
the Future stays non-cancelled under every dispatch other than `killed(id)`,
and the `killed(id)` dispatch alone makes `cancelled()` and `done()` true. -/
theorem C7_cancel_frame (st : CEState) (i : Nat) (f : FutureState)
    (hf : dictLookup st.promises i = some f) (hnd : Future.done f = false) :
    (Future.cancel st i).outbox = st.outbox ++ [OutMsg.kill i] ∧
    (Future.cancel st i).promises = st.promises ∧
    (Future.cancel st i).sim_pending = st.sim_pending ∧
    (Future.cancel st i).sim_started = st.sim_started ∧
    (Future.cancel st i).workers = st.workers ∧
    (Future.cancel st i).waiting_for_queued = st.waiting_for_queued ∧
    (Future.cancel st i).returning_promises = st.returning_promises ∧
    cancelledAt st.promises i = false ∧
    doneAt st.promises i = false ∧
    (∀ m : GenMsg, m ≠ GenMsg.killed i →
      cancelledAt (CommEval.process_message st m).1.promises i = false) ∧
    (CommEval.process_message st (GenMsg.killed i) =
      ({ st with sim_pending := st.sim_pending - 1,
                 promises := dictInsert st.promises i (Future.on_killed f) },
       Except.ok (Int.ofNat i)) ∧
     cancelledAt (dictInsert st.promises i (Future.on_killed f)) i = true ∧
     doneAt (dictInsert st.promises i (Future.on_killed f)) i = true) := by
  have hkill : f.killed = false := by
    cases hk : f.killed
    · rfl
    · simp [Future.done, hk] at hnd
  refine ⟨rfl, rfl, rfl, rfl, rfl, rfl, rfl, ?_, ?_, ?_, ?_⟩
  · simp [cancelledAt, hf, Future.cancelled, hkill]
  · simp [doneAt, hf, hnd]
  · intro m hm
    cases m with
    | worker n =>
        show cancelledAt (CommEval.on_worker st n).1.promises i = false
        simp [CommEval.on_worker, cancelledAt, hf, Future.cancelled, hkill]
    | queued lo =>
        show cancelledAt (CommEval.on_queued st lo).1.promises i = false
        simp only [CommEval.on_queued]
        by_cases hmem : i ∈ List.range' lo st.waiting_for_queued
        · simp [cancelledAt, dictLookup_insertAll_mem _ _ _ hmem, Future.cancelled,
            Future.init]
        · simp [cancelledAt, dictLookup_insertAll_not_mem _ _ _ hmem, hf,
            Future.cancelled, hkill]
    | result j h =>
        show cancelledAt (CommEval.on_result st j h).1.promises i = false
        unfold CommEval.on_result
        cases hj : dictLookup st.promises j with
        | none => simp [hj, cancelledAt, hf, Future.cancelled, hkill]
        | some g =>
            simp only [hj]
            by_cases hji : j = i
            · subst hji
              rw [hf] at hj
              cases hj
              simp [cancelledAt, dictLookup_dictInsert, Future.on_result,
                Future.cancelled, hkill]
            · simp [cancelledAt, dictLookup_dictInsert, hji, hf, Future.cancelled, hkill]
    | update j h =>
        show cancelledAt (CommEval.on_update st j h).1.promises i = false
        unfold CommEval.on_update
        cases hj : dictLookup st.promises j with
        | none => simp [hj, cancelledAt, hf, Future.cancelled, hkill]
        | some g =>
            simp only [hj]
            by_cases hji : j = i
            · subst hji
              rw [hf] at hj
              cases hj
              simp [cancelledAt, dictLookup_dictInsert, Future.on_update,
                Future.cancelled, hkill]
            · simp [cancelledAt, dictLookup_dictInsert, hji, hf, Future.cancelled, hkill]
    | killed j =>
        have hji : j ≠ i := fun hji => hm (by rw [hji])
        show cancelledAt (CommEval.on_killed st j).1.promises i = false
        unfold CommEval.on_killed
        cases hj : dictLookup st.promises j with
        | none => simp [hj, cancelledAt, hf, Future.cancelled, hkill]
        | some g =>
            simp only [hj]
            simp [cancelledAt, dictLookup_dictInsert, hji, hf, Future.cancelled, hkill]
    | history h =>
        show cancelledAt (CommEval.on_history st h).1.promises i = false
        simp [CommEval.on_history, cancelledAt, hf, Future.cancelled, hkill]
  · refine ⟨?_, ?_, ?_⟩
    · show CommEval.on_killed st i = _
      unfold CommEval.on_killed
      simp [hf]
    · simp [cancelledAt, dictLookup_dictInsert, Future.on_killed, Future.cancelled]
    · simp [doneAt, dictLookup_dictInsert, Future.on_killed, Future.done]

/-- Witness for C7 on the concrete one-Future controller. -/
theorem C7_cancel_frame_witness :
    (Future.cancel stOne 3).outbox = stOne.outbox ++ [OutMsg.kill 3] ∧
    (Future.cancel stOne 3).promises = stOne.promises ∧
    (Future.cancel stOne 3).sim_pending = stOne.sim_pending ∧
    (Future.cancel stOne 3).sim_started = stOne.sim_started ∧
    (Future.cancel stOne 3).workers = stOne.workers ∧
    (Future.cancel stOne 3).waiting_for_queued = stOne.waiting_for_queued ∧
    (Future.cancel stOne 3).returning_promises = stOne.returning_promises ∧
    cancelledAt stOne.promises 3 = false ∧
    doneAt stOne.promises 3 = false ∧
    (∀ m : GenMsg, m ≠ GenMsg.killed 3 →
      cancelledAt (CommEval.process_message stOne m).1.promises 3 = false) ∧
    (CommEval.process_message stOne (GenMsg.killed 3) =
      ({ stOne with sim_pending := stOne.sim_pending - 1,
                    promises := dictInsert stOne.promises 3 (Future.on_killed Future.init) },
       Except.ok (Int.ofNat 3)) ∧
     cancelledAt (dictInsert stOne.promises 3 (Future.on_killed Future.init)) 3 = true ∧
     doneAt (dictInsert stOne.promises 3 (Future.on_killed Future.init)) 3 = true) :=
  C7_cancel_frame stOne 3 Future.init (by decide) (by decide)

theorem requestLoop_done (msgs : List GenMsg) (st : CEState)
    (h : st.waiting_for_queued = 0) :
    CommEval.requestLoop msgs st = some (st, msgs) := by
  cases msgs <;> simp [CommEval.requestLoop, h]

theorem requestLoop_queued (st1 : CEState) (lo : Nat) (rest : List GenMsg)
    (h : 0 < st1.waiting_for_queued) :
    CommEval.requestLoop (GenMsg.queued lo :: rest) st1 =
      some ({ st1 with
          waiting_for_queued := 0,
          returning_promises := some (List.range' lo st1.waiting_for_queued),
          promises := insertAll (List.range' lo st1.waiting_for_queued) st1.promises },
        rest) := by
  simp only [CommEval.requestLoop]
  rw [if_pos h]
  show (match CommEval.on_queued st1 lo with
        | (st', Except.ok _) => CommEval.requestLoop rest st'
        | (_, Except.error _) => none) = _
  simp only [CommEval.on_queued, Nat.add_sub_cancel_left]
  exact requestLoop_done rest _ rfl

theorem request_queued_eq (st : CEState) (hist : List Nat) (lo : Nat)
    (rest : List GenMsg) (hk : 0 < hist.length) :
    CommEval.request st hist (GenMsg.queued lo :: rest) =
      some ({ st with
          sim_started := st.sim_started + hist.length,
          sim_pending := st.sim_pending + (hist.length : Int),
          outbox := st.outbox ++ [OutMsg.request hist],
          waiting_for_queued := 0,
          returning_promises := none,
          promises := insertAll (List.range' lo hist.length) st.promises },
        rest, some (List.range' lo hist.length)) := by
  simp only [CommEval.request]
  rw [requestLoop_queued _ lo rest (by exact hk)]

/-- Claim C1: for a batch of `k = len(hist)` records submitted via
`CommEval.request`, once the `queued(lo)` acknowledgment is dispatched the
call returns the list of exactly `k` Future ids `lo, lo+1, …, lo+k-1` in
ascending submission order, every one of them is stored in the promise table
as a fresh Future, and `waiting_for_queued` is reset to zero. -/
theorem C1_request_batch_ids (st : CEState) (hist : List Nat) (lo : Nat)
    (rest : List GenMsg) (hk : 0 < hist.length) :
    ∃ st' : CEState,
      CommEval.request st hist (GenMsg.queued lo :: rest) =
        some (st', rest, some (List.range' lo hist.length)) ∧
      (List.range' lo hist.length).length = hist.length ∧
      (∀ j, j < hist.length → (List.range' lo hist.length)[j]? = some (lo + j)) ∧
      (∀ i ∈ List.range' lo hist.length, dictLookup st'.promises i = some Future.init) ∧
      st'.waiting_for_queued = 0 := by
  refine ⟨_, request_queued_eq st hist lo rest hk, by simp, ?_, ?_, rfl⟩
  · intro j hj
    simp [List.getElem?_range', hj]
  · intro i hi
    exact dictLookup_insertAll_mem _ _ _ hi

/-- Witness for C1: a batch of two records acknowledged at `queued(5)` yields
Futures 5 and 6. -/
theorem C1_request_batch_ids_witness :
    ∃ st' : CEState,
      CommEval.request st0 [7, 8] (GenMsg.queued 5 :: []) =
        some (st', [], some (List.range' 5 2)) ∧
      (List.range' 5 2).length = 2 ∧
      (∀ j, j < 2 → (List.range' 5 2)[j]? = some (5 + j)) ∧
      (∀ i ∈ List.range' 5 2, dictLookup st'.promises i = some Future.init) ∧
      st'.waiting_for_queued = 0 :=
  C1_request_batch_ids st0 [7, 8] 5 [] (by decide)

/-- Claim C8: the single-record convenience call fails on its usage asserts
when given both positional and keyword field values, and when given neither;
given exactly one of the two forms it submits a batch of one record and
returns a single Future (the id acknowledged by `queued`), not a list. -/
theorem C8_call_usage (st : CEState) (nargs nkwargs nfields lo : Nat)
    (msgs rest : List GenMsg) :
    (nargs ≠ 0 → nkwargs ≠ 0 →
      CommEval.call st nargs nkwargs nfields msgs =
        CallResult.assertErr "Must specify simulation args by position or keyword, but not both") ∧
    (nargs = 0 → nkwargs = 0 →
      CommEval.call st nargs nkwargs nfields msgs =
        CallResult.assertErr "Must specify simulation arguments.") ∧
    ((nargs = 0 ∧ nkwargs ≠ 0) ∨ (nargs ≠ 0 ∧ nkwargs = 0 ∧ nargs = nfields) →
      ∃ st' : CEState,
        CommEval.call st nargs nkwargs nfields (GenMsg.queued lo :: rest) =
          CallResult.ok st' rest lo ∧
        dictLookup st'.promises lo = some Future.init) := by
  have hone : List.range' lo ([0] : List Nat).length = [lo] := by simp
  refine ⟨?_, ?_, ?_⟩
  · intro h1 h2
    unfold CommEval.call
    rw [if_pos ⟨h1, h2⟩]
  · intro h1 h2
    unfold CommEval.call
    rw [if_neg (by tauto), if_pos ⟨h1, h2⟩]
  · intro hform
    have hreq := request_queued_eq st [0] lo rest (by decide)
    rw [hone] at hreq
    unfold CommEval.call
    rcases hform with ⟨h1, h2⟩ | ⟨h1, h2, h3⟩
    · rw [if_neg (by tauto), if_neg (by tauto), if_neg (by tauto), hreq]
      exact ⟨_, rfl, dictLookup_insertAll_mem _ _ _ (by simp)⟩
    · rw [if_neg (by tauto), if_neg (by tauto), if_neg (by tauto), hreq]
      exact ⟨_, rfl, dictLookup_insertAll_mem _ _ _ (by simp)⟩

/-- Witness for C8 at the keyword-only form with acknowledgment `queued(5)`. -/
theorem C8_call_usage_witness :
    (1 ≠ 0 → 0 ≠ 0 →
      CommEval.call st0 1 0 1 [] =
        CallResult.assertErr "Must specify simulation args by position or keyword, but not both") ∧
    (1 = 0 → 0 = 0 →
      CommEval.call st0 1 0 1 [] =
        CallResult.assertErr "Must specify simulation arguments.") ∧
    ((1 = 0 ∧ 0 ≠ 0) ∨ (1 ≠ 0 ∧ 0 = 0 ∧ 1 = 1) →
      ∃ st' : CEState,
        CommEval.call st0 1 0 1 (GenMsg.queued 5 :: []) =
          CallResult.ok st' [] 5 ∧
        dictLookup st'.promises 5 = some Future.init) :=
  C8_call_usage st0 1 0 1 5 [] []

theorem waitAnyLoop_exit (msgs : List GenMsg) (st : CEState) (sim_id : Int)
    (h : CommEval.waitAnyGuard st sim_id = some false) :
    CommEval.waitAnyLoop msgs st sim_id = some (st, msgs) := by
  cases msgs <;> simp [CommEval.waitAnyLoop, h]

/-- Claim C4: while `wait_any` is looping, dispatching an `update` for a
non-terminal Future yields its non-negative id but leaves the guard true
(the loop continues), dispatching `worker`/`history` yields the sentinel `-1`
and leaves the guard true, while the first dispatched `result` or `killed`
for a tracked id makes the loop return at once. -/
theorem C4_wait_any_dispatch (st : CEState) (sim_id : Int) (i : Nat) (p : Nat)
    (w : Int) (hp : Nat) (rest : List GenMsg) (f : FutureState)
    (hg : CommEval.waitAnyGuard st sim_id = some true)
    (hf : dictLookup st.promises i = some f) :
    (Future.done f = false →
      CommEval.waitAnyLoop (GenMsg.update i p :: rest) st sim_id =
        CommEval.waitAnyLoop rest
          { st with promises := dictInsert st.promises i (Future.on_update f p) }
          (Int.ofNat i) ∧
      CommEval.waitAnyGuard
        { st with promises := dictInsert st.promises i (Future.on_update f p) }
        (Int.ofNat i) = some true) ∧
    (CommEval.waitAnyLoop (GenMsg.worker w :: rest) st sim_id =
      CommEval.waitAnyLoop rest { st with workers := w } (-1) ∧
      CommEval.waitAnyGuard { st with workers := w } (-1) = some true) ∧
    (CommEval.waitAnyLoop (GenMsg.history hp :: rest) st sim_id =
      CommEval.waitAnyLoop rest st (-1) ∧
      CommEval.waitAnyGuard st (-1) = some true) ∧
    (CommEval.waitAnyLoop (GenMsg.result i p :: rest) st sim_id =
      some ({ st with sim_pending := st.sim_pending - 1,
                      promises := dictInsert st.promises i (Future.on_result f p) }, rest)) ∧
    (CommEval.waitAnyLoop (GenMsg.killed i :: rest) st sim_id =
      some ({ st with sim_pending := st.sim_pending - 1,
                      promises := dictInsert st.promises i (Future.on_killed f) }, rest)) := by
  refine ⟨?_, ⟨?_, ?_⟩, ⟨?_, ?_⟩, ?_, ?_⟩
  · intro hdone
    constructor
    · simp only [CommEval.waitAnyLoop, hg, CommEval.process_message, CommEval.on_update, hf]
    · unfold CommEval.waitAnyGuard
      rw [if_neg (show ¬ Int.ofNat i < 0 from Int.not_lt.mpr (Int.ofNat_nonneg i))]
      simp [Int.toNat_ofNat, dictLookup_dictInsert, Future.on_update, Future.done]
      simp [Future.done] at hdone
      simp [hdone.1, hdone.2]
  · simp only [CommEval.waitAnyLoop, hg, CommEval.process_message, CommEval.on_worker]
  · simp [CommEval.waitAnyGuard]
  · simp only [CommEval.waitAnyLoop, hg, CommEval.process_message, CommEval.on_history]
  · simp [CommEval.waitAnyGuard]
  · have hgex : CommEval.waitAnyGuard
        { st with sim_pending := st.sim_pending - 1,
                  promises := dictInsert st.promises i (Future.on_result f p) }
        (Int.ofNat i) = some false := by
      unfold CommEval.waitAnyGuard
      rw [if_neg (show ¬ Int.ofNat i < 0 from Int.not_lt.mpr (Int.ofNat_nonneg i))]
      simp [Int.toNat_ofNat, dictLookup_dictInsert, Future.on_result, Future.done]
    simp only [CommEval.waitAnyLoop, hg, CommEval.process_message, CommEval.on_result, hf]
    rw [waitAnyLoop_exit rest _ _ hgex]
  · have hgex : CommEval.waitAnyGuard
        { st with sim_pending := st.sim_pending - 1,
                  promises := dictInsert st.promises i (Future.on_killed f) }
        (Int.ofNat i) = some false := by
      unfold CommEval.waitAnyGuard
      rw [if_neg (show ¬ Int.ofNat i < 0 from Int.not_lt.mpr (Int.ofNat_nonneg i))]
      simp [Int.toNat_ofNat, dictLookup_dictInsert, Future.on_killed, Future.done]
    simp only [CommEval.waitAnyLoop, hg, CommEval.process_message, CommEval.on_killed, hf]
    rw [waitAnyLoop_exit rest _ _ hgex]

/-- Witness for C4 on the one-Future controller at the start of `wait_any`. -/
theorem C4_wait_any_dispatch_witness :
    (Future.done Future.init = false →
      CommEval.waitAnyLoop (GenMsg.update 3 5 :: []) stOne (-1) =
        CommEval.waitAnyLoop []
          { stOne with promises := dictInsert stOne.promises 3 (Future.on_update Future.init 5) }
          (Int.ofNat 3) ∧
      CommEval.waitAnyGuard
        { stOne with promises := dictInsert stOne.promises 3 (Future.on_update Future.init 5) }
        (Int.ofNat 3) = some true) ∧
    (CommEval.waitAnyLoop (GenMsg.worker 2 :: []) stOne (-1) =
      CommEval.waitAnyLoop [] { stOne with workers := 2 } (-1) ∧
      CommEval.waitAnyGuard { stOne with workers := 2 } (-1) = some true) ∧
    (CommEval.waitAnyLoop (GenMsg.history 0 :: []) stOne (-1) =
      CommEval.waitAnyLoop [] stOne (-1) ∧
      CommEval.waitAnyGuard stOne (-1) = some true) ∧
    (CommEval.waitAnyLoop (GenMsg.result 3 5 :: []) stOne (-1) =
      some ({ stOne with sim_pending := stOne.sim_pending - 1,
                         promises := dictInsert stOne.promises 3 (Future.on_result Future.init 5) }, [])) ∧
    (CommEval.waitAnyLoop (GenMsg.killed 3 :: []) stOne (-1) =
      some ({ stOne with sim_pending := stOne.sim_pending - 1,
                         promises := dictInsert stOne.promises 3 (Future.on_killed Future.init) }, [])) :=
  C4_wait_any_dispatch stOne (-1) 3 5 2 0 [] Future.init (by decide) (by decide)

theorem resultLoop_none_no_timeout (events : List RecvEvent) :
    ∀ (st : CEState) (i : Nat),
      (Future.resultLoop events st i none).1 ≠ ResultOutcome.timeoutRaised := by
  induction events with
  | nil =>
      intro st i
      by_cases hd : doneAt st.promises i <;>
        simp [Future.resultLoop, timeoutNeg, hd]
  | cons e rest ih =>
      intro st i
      by_cases hd : doneAt st.promises i
      · simp [Future.resultLoop, hd]
      · cases e with
        | tmo d =>
            simp only [Future.resultLoop, hd, Bool.false_eq_true, if_false, timeoutNeg]
            simpa [decBudget] using ih st i
        | msg m d =>
            rcases hpm : CommEval.process_message st m with ⟨st', r⟩
            cases r with
            | ok v =>
                simp only [Future.resultLoop, hd, Bool.false_eq_true, if_false, timeoutNeg,
                  hpm]
                simpa [decBudget] using ih st' i
            | error err =>
                simp [Future.resultLoop, hd, timeoutNeg, hpm]

theorem resultLoop_value_done (events : List RecvEvent) :
    ∀ (st : CEState) (i : Nat) (t : Option Int) (r : Option Nat),
      (Future.resultLoop events st i t).1 = ResultOutcome.value r →
      doneAt (Future.resultLoop events st i t).2.1.promises i = true ∧
      r = resultAt (Future.resultLoop events st i t).2.1.promises i := by
  induction events with
  | nil =>
      intro st i t r h
      by_cases hd : doneAt st.promises i
      · simp only [Future.resultLoop, hd, if_true] at h ⊢
        simp at h
        exact ⟨trivial, h.symm⟩
      · by_cases ht : timeoutNeg t <;>
          simp [Future.resultLoop, hd, ht] at h
  | cons e rest ih =>
      intro st i t r h
      by_cases hd : doneAt st.promises i
      · simp only [Future.resultLoop, hd, if_true] at h ⊢
        simp at h
        exact ⟨trivial, h.symm⟩
      · by_cases ht : timeoutNeg t
        · simp [Future.resultLoop, hd, ht] at h
        · cases e with
          | tmo d =>
              simp only [Future.resultLoop, hd, ht, Bool.false_eq_true, if_false] at h ⊢
              exact ih st i (decBudget t d) r h
          | msg m d =>
              rcases hpm : CommEval.process_message st m with ⟨st', rr⟩
              cases rr with
              | ok v =>
                  simp only [Future.resultLoop, hd, ht, Bool.false_eq_true, if_false,
                    hpm] at h ⊢
                  exact ih st' i (decBudget t d) r h
              | error err =>
                  simp [Future.resultLoop, hd, ht, hpm] at h

/-- Claim C5: for a not-yet-done Future, `result(timeout=T)` raises `Timeout`
immediately (final state unchanged, no receive attempted) whenever the budget
is negative at a check, including before the first attempt; a `Timeout`
raised by one dispatch attempt is swallowed and the loop continues with the
budget decremented by the elapsed wall time, the attempt having been passed
the then-remaining budget; with `T = None` the call never raises `Timeout`;
and a normal return happens only with `done()` true, yielding the stored
result. -/
theorem C5_future_result_timeout (st : CEState) (i : Nat) (t d : Int)
    (tOpt : Option Int) (events : List RecvEvent) (m : GenMsg)
    (hnd : doneAt st.promises i = false) :
    (t < 0 →
      Future.resultLoop events st i (some t) = (ResultOutcome.timeoutRaised, st, [])) ∧
    (0 ≤ t →
      Future.resultLoop (RecvEvent.tmo d :: events) st i (some t) =
        ((Future.resultLoop events st i (some (t - d))).1,
         (Future.resultLoop events st i (some (t - d))).2.1,
         some t :: (Future.resultLoop events st i (some (t - d))).2.2)) ∧
    (0 ≤ t → ∀ st' r, CommEval.process_message st m = (st', Except.ok r) →
      Future.resultLoop (RecvEvent.msg m d :: events) st i (some t) =
        ((Future.resultLoop events st' i (some (t - d))).1,
         (Future.resultLoop events st' i (some (t - d))).2.1,
         some t :: (Future.resultLoop events st' i (some (t - d))).2.2)) ∧
    ((Future.resultLoop events st i none).1 ≠ ResultOutcome.timeoutRaised) ∧
    (∀ r, (Future.resultLoop events st i tOpt).1 = ResultOutcome.value r →
      doneAt (Future.resultLoop events st i tOpt).2.1.promises i = true ∧
      r = resultAt (Future.resultLoop events st i tOpt).2.1.promises i) := by
  refine ⟨?_, ?_, ?_, resultLoop_none_no_timeout events st i,
    fun r h => resultLoop_value_done events st i tOpt r h⟩
  · intro hneg
    cases events <;> simp [Future.resultLoop, hnd, timeoutNeg, hneg]
  · intro hpos
    have hns : ¬ t < 0 := Int.not_lt.mpr hpos
    simp [Future.resultLoop, hnd, timeoutNeg, hns, decBudget]
  · intro hpos st' r hpm
    have hns : ¬ t < 0 := Int.not_lt.mpr hpos
    simp [Future.resultLoop, hnd, timeoutNeg, hns, hpm, decBudget]

/-- Witness for C5 on the one-Future controller. -/
theorem C5_future_result_timeout_witness :
    ((5 : Int) < 0 →
      Future.resultLoop [] stOne 3 (some 5) = (ResultOutcome.timeoutRaised, stOne, [])) ∧
    ((0 : Int) ≤ 5 →
      Future.resultLoop (RecvEvent.tmo 2 :: []) stOne 3 (some 5) =
        ((Future.resultLoop [] stOne 3 (some (5 - 2))).1,
         (Future.resultLoop [] stOne 3 (some (5 - 2))).2.1,
         some 5 :: (Future.resultLoop [] stOne 3 (some (5 - 2))).2.2)) ∧
    ((0 : Int) ≤ 5 → ∀ st' r, CommEval.process_message stOne (GenMsg.worker 0) =
        (st', Except.ok r) →
      Future.resultLoop (RecvEvent.msg (GenMsg.worker 0) 2 :: []) stOne 3 (some 5) =
        ((Future.resultLoop [] st' 3 (some (5 - 2))).1,
         (Future.resultLoop [] st' 3 (some (5 - 2))).2.1,
         some 5 :: (Future.resultLoop [] st' 3 (some (5 - 2))).2.2)) ∧
    ((Future.resultLoop [] stOne 3 none).1 ≠ ResultOutcome.timeoutRaised) ∧
    (∀ r, (Future.resultLoop [] stOne 3 none).1 = ResultOutcome.value r →
      doneAt (Future.resultLoop [] stOne 3 none).2.1.promises 3 = true ∧
      r = resultAt (Future.resultLoop [] stOne 3 none).2.1.promises 3) :=
  C5_future_result_timeout stOne 3 5 2 none [] (GenMsg.worker 0) (by decide)

theorem pendingCount_cons (k : Nat) (w : FutureState) (rest : List (Nat × FutureState)) :
    pendingCount ((k, w) :: rest) = (if Future.done w then 0 else 1) + pendingCount rest := by
  by_cases hw : Future.done w <;> simp [pendingCount, List.filter, hw] <;> omega

theorem pendingCount_dictInsert (m : List (Nat × FutureState)) (i : Nat)
    (f v : FutureState) (h : dictLookup m i = some f) :
    pendingCount (dictInsert m i v) + (if Future.done f then 0 else 1) =
    pendingCount m + (if Future.done v then 0 else 1) := by
  induction m with
  | nil => simp [dictLookup] at h
  | cons kw rest ih =>
      obtain ⟨k, w⟩ := kw
      by_cases hk : k = i
      · subst hk
        have hw : w = f := by
          have h' := h
          simp [dictLookup] at h'
          exact h'
        subst hw
        have hins : dictInsert ((k, w) :: rest) k v = (k, v) :: rest := by
          simp [dictInsert]
        rw [hins, pendingCount_cons, pendingCount_cons]
        omega
      · have h' : dictLookup rest i = some f := by
          simpa [dictLookup, hk] using h
        simp only [dictInsert, if_neg hk]
        rw [pendingCount_cons, pendingCount_cons]
        have := ih h'
        omega

theorem inv_pending_zero_all_done (st : CEState) (hInv : ctrlInv st)
    (hp : ¬ 0 < st.sim_pending) :
    st.sim_pending = 0 ∧ ∀ kv ∈ st.promises, Future.done kv.2 = true := by
  have h1 := hInv.1
  have hz : st.sim_pending = 0 := by omega
  refine ⟨hz, ?_⟩
  have hpc0 : pendingCount st.promises = 0 := by omega
  have hfil : st.promises.filter (fun kv => !Future.done kv.2) = [] :=
    List.length_eq_zero.mp hpc0
  intro kv hkv
  by_contra hdk
  simp only [Bool.not_eq_true] at hdk
  have hmem : kv ∈ st.promises.filter (fun kv => !Future.done kv.2) :=
    List.mem_filter.mpr ⟨hkv, by simp [hdk]⟩
  rw [hfil] at hmem
  cases hmem

theorem step_preserves (st : CEState) (m : GenMsg) (rest : List GenMsg)
    (hInv : ctrlInv st) (hOk : termOk st.promises (m :: rest)) :
    (∀ st' r, CommEval.process_message st m = (st', Except.ok r) →
        ctrlInv st' ∧ termOk st'.promises rest) ∧
    (∀ st' e, CommEval.process_message st m = (st', Except.error e) →
        st'.sim_pending = st.sim_pending) := by
  obtain ⟨hpc, hw⟩ := hInv
  obtain ⟨hnd, hall⟩ := hOk
  cases m with
  | worker n =>
      constructor
      · intro st' r h
        simp only [CommEval.process_message, CommEval.on_worker] at h
        injection h with h1 h2
        subst h1
        exact ⟨⟨hpc, hw⟩, hnd, hall⟩
      · intro st' e h
        simp only [CommEval.process_message, CommEval.on_worker] at h
        injection h with h1 h2
        exact Except.noConfusion h2
  | queued lo =>
      constructor
      · intro st' r h
        simp only [CommEval.process_message, CommEval.on_queued, hw,
          Nat.add_sub_cancel_left, List.range', insertAll, List.foldl_nil] at h
        injection h with h1 h2
        subst h1
        exact ⟨⟨hpc, rfl⟩, hnd, hall⟩
      · intro st' e h
        simp only [CommEval.process_message, CommEval.on_queued] at h
        injection h with h1 h2
        exact Except.noConfusion h2
  | result i hist =>
      have hi := hall i (List.mem_cons_self i _)
      rcases hlf : dictLookup st.promises i with _ | f
      · simp [pendingIn, hlf] at hi
      · have hdf : Future.done f = false := by
          simpa [pendingIn, hlf] using hi
        obtain ⟨hni, hnd'⟩ := List.nodup_cons.mp hnd
        have hcount := pendingCount_dictInsert st.promises i f
          (Future.on_result f hist) hlf
        have hdn : Future.done (Future.on_result f hist) = true := by
          simp [Future.on_result, Future.done]
        rw [hdf, hdn] at hcount
        simp at hcount
        constructor
        · intro st' r h
          simp only [CommEval.process_message, CommEval.on_result, hlf] at h
          injection h with h1 h2
          subst h1
          refine ⟨⟨?_, hw⟩, hnd', ?_⟩
          · show st.sim_pending - 1 =
              (pendingCount (dictInsert st.promises i (Future.on_result f hist)) : Int)
            omega
          · intro j hj
            have hji : j ≠ i := fun hji => hni (hji ▸ hj)
            have hpj := hall j (List.mem_cons_of_mem _ hj)
            have hij : ¬ i = j := fun hij => hji hij.symm
            show pendingIn (dictInsert st.promises i (Future.on_result f hist)) j = true
            simpa [pendingIn, dictLookup_dictInsert, hij] using hpj
        · intro st' e h
          simp only [CommEval.process_message, CommEval.on_result, hlf] at h
          injection h with h1 h2
          exact Except.noConfusion h2
  | update i hist =>
      rcases hlf : dictLookup st.promises i with _ | g
      · constructor
        · intro st' r h
          simp only [CommEval.process_message, CommEval.on_update, hlf] at h
          injection h with h1 h2
          exact Except.noConfusion h2
        · intro st' e h
          simp only [CommEval.process_message, CommEval.on_update, hlf] at h
          injection h with h1 h2
          subst h1
          rfl
      · have hcount := pendingCount_dictInsert st.promises i g
          (Future.on_update g hist) hlf
        have hdn : Future.done (Future.on_update g hist) = Future.done g := by
          simp [Future.on_update, Future.done]
        rw [hdn] at hcount
        constructor
        · intro st' r h
          simp only [CommEval.process_message, CommEval.on_update, hlf] at h
          injection h with h1 h2
          subst h1
          refine ⟨⟨?_, hw⟩, hnd, ?_⟩
          · show st.sim_pending =
              (pendingCount (dictInsert st.promises i (Future.on_update g hist)) : Int)
            omega
          · intro j hj
            have hpj := hall j hj
            show pendingIn (dictInsert st.promises i (Future.on_update g hist)) j = true
            by_cases hji : i = j
            · subst hji
              simp only [pendingIn, hlf] at hpj
              simpa [pendingIn, dictLookup_dictInsert, Future.on_update, Future.done]
                using hpj
            · simpa [pendingIn, dictLookup_dictInsert, hji] using hpj
        · intro st' e h
          simp only [CommEval.process_message, CommEval.on_update, hlf] at h
          injection h with h1 h2
          exact Except.noConfusion h2
  | killed i =>
      have hi := hall i (List.mem_cons_self i _)
      rcases hlf : dictLookup st.promises i with _ | f
      · simp [pendingIn, hlf] at hi
      · have hdf : Future.done f = false := by
          simpa [pendingIn, hlf] using hi
        obtain ⟨hni, hnd'⟩ := List.nodup_cons.mp hnd
        have hcount := pendingCount_dictInsert st.promises i f
          (Future.on_killed f) hlf
        have hdn : Future.done (Future.on_killed f) = true := by
          simp [Future.on_killed, Future.done]
        rw [hdf, hdn] at hcount
        simp at hcount
        constructor
        · intro st' r h
          simp only [CommEval.process_message, CommEval.on_killed, hlf] at h
          injection h with h1 h2
          subst h1
          refine ⟨⟨?_, hw⟩, hnd', ?_⟩
          · show st.sim_pending - 1 =
              (pendingCount (dictInsert st.promises i (Future.on_killed f)) : Int)
            omega
          · intro j hj
            have hji : j ≠ i := fun hji => hni (hji ▸ hj)
            have hpj := hall j (List.mem_cons_of_mem _ hj)
            have hij : ¬ i = j := fun hij => hji hij.symm
            show pendingIn (dictInsert st.promises i (Future.on_killed f)) j = true
            simpa [pendingIn, dictLookup_dictInsert, hij] using hpj
        · intro st' e h
          simp only [CommEval.process_message, CommEval.on_killed, hlf] at h
          injection h with h1 h2
          exact Except.noConfusion h2
  | history hist =>
      constructor
      · intro st' r h
        simp only [CommEval.process_message, CommEval.on_history] at h
        injection h with h1 h2
        subst h1
        exact ⟨⟨hpc, hw⟩, hnd, hall⟩
      · intro st' e h
        simp only [CommEval.process_message, CommEval.on_history] at h
        injection h with h1 h2
        exact Except.noConfusion h2

theorem waitAll_run (msgs : List GenMsg) :
    ∀ st : CEState, ctrlInv st → termOk st.promises msgs →
      (∀ s ∈ CommEval.waitAllStates msgs st, 0 ≤ s.sim_pending) ∧
      (∀ st' rest, CommEval.wait_all msgs st = some (st', rest) →
          st'.sim_pending = 0 ∧ ∀ kv ∈ st'.promises, Future.done kv.2 = true) := by
  induction msgs with
  | nil =>
      intro st hInv hOk
      constructor
      · intro s hs
        simp only [CommEval.waitAllStates, List.mem_singleton] at hs
        subst hs
        have := hInv.1
        omega
      · intro st' rest h
        simp only [CommEval.wait_all] at h
        by_cases hp : 0 < st.sim_pending
        · rw [if_pos hp] at h
          cases h
        · rw [if_neg hp] at h
          injection h with h1
          injection h1 with ha hb
          subst ha
          subst hb
          exact inv_pending_zero_all_done st hInv hp
  | cons m rest ih =>
      intro st hInv hOk
      by_cases hp : 0 < st.sim_pending
      · rcases hpm : CommEval.process_message st m with ⟨stn, r⟩
        cases r with
        | ok v =>
            obtain ⟨hInv', hOk'⟩ := (step_preserves st m rest hInv hOk).1 stn v hpm
            obtain ⟨ihTrace, ihRun⟩ := ih stn hInv' hOk'
            constructor
            · intro s hs
              simp only [CommEval.waitAllStates, hp, if_true, hpm] at hs
              rcases List.mem_cons.mp hs with hs | hs
              · subst hs
                have := hInv.1
                omega
              · exact ihTrace s hs
            · intro st' rest' h
              simp only [CommEval.wait_all, hp, if_true, hpm] at h
              exact ihRun st' rest' h
        | error e =>
            have hpe := (step_preserves st m rest hInv hOk).2 stn e hpm
            constructor
            · intro s hs
              simp only [CommEval.waitAllStates, hp, if_true, hpm] at hs
              rcases List.mem_cons.mp hs with hs | hs
              · subst hs
                have := hInv.1
                omega
              · simp only [List.mem_singleton] at hs
                subst hs
                have := hInv.1
                omega
            · intro st' rest' h
              simp only [CommEval.wait_all, hp, if_true, hpm] at h
              cases h
      · constructor
        · intro s hs
          simp only [CommEval.waitAllStates, hp, if_false, List.mem_singleton] at hs
          subst hs
          have := hInv.1
          omega
        · intro st' rest' h
          simp only [CommEval.wait_all, hp, if_false] at h
          injection h with h1
          injection h1 with ha hb
          subst ha
          subst hb
          exact inv_pending_zero_all_done st hInv hp

/-- Claim C3: under the at-most-one-terminal-delivery-per-id precondition
(each targeting a tracked, still-pending Future), each dispatched `result` or
`killed` message decrements `sim_pending` by exactly one, `sim_pending` stays
non-negative throughout `wait_all`, and `wait_all` returns exactly when
`sim_pending` reaches zero — at which point every tracked Future is
terminal. -/
theorem C3_wait_all_pending (st : CEState) (msgs : List GenMsg) (i hist : Nat)
    (hInv : ctrlInv st) (hOk : termOk st.promises msgs) :
    (0 ≤ st.sim_pending) ∧
    ((CommEval.process_message st (GenMsg.result i hist)).1.sim_pending =
      st.sim_pending - 1) ∧
    ((CommEval.process_message st (GenMsg.killed i)).1.sim_pending =
      st.sim_pending - 1) ∧
    (st.sim_pending = 0 → CommEval.wait_all msgs st = some (st, msgs)) ∧
    (∀ s ∈ CommEval.waitAllStates msgs st, 0 ≤ s.sim_pending) ∧
    (∀ st' rest, CommEval.wait_all msgs st = some (st', rest) →
      st'.sim_pending = 0 ∧ ∀ kv ∈ st'.promises, Future.done kv.2 = true) := by
  obtain ⟨hTrace, hRun⟩ := waitAll_run msgs st hInv hOk
  refine ⟨?_, ?_, ?_, ?_, hTrace, hRun⟩
  · have := hInv.1
    omega
  · show (CommEval.on_result st i hist).1.sim_pending = _
    unfold CommEval.on_result
    cases hlf : dictLookup st.promises i <;> simp [hlf]
  · show (CommEval.on_killed st i).1.sim_pending = _
    unfold CommEval.on_killed
    cases hlf : dictLookup st.promises i <;> simp [hlf]
  · intro hz
    cases msgs <;> simp [CommEval.wait_all, hz]

/-- Witness for C3 on the one-Future controller receiving its single result. -/
theorem C3_wait_all_pending_witness :
    (0 ≤ stOne.sim_pending) ∧
    ((CommEval.process_message stOne (GenMsg.result 3 5)).1.sim_pending =
      stOne.sim_pending - 1) ∧
    ((CommEval.process_message stOne (GenMsg.killed 3)).1.sim_pending =
      stOne.sim_pending - 1) ∧
    (stOne.sim_pending = 0 →
      CommEval.wait_all [GenMsg.result 3 5] stOne = some (stOne, [GenMsg.result 3 5])) ∧
    (∀ s ∈ CommEval.waitAllStates [GenMsg.result 3 5] stOne, 0 ≤ s.sim_pending) ∧
    (∀ st' rest, CommEval.wait_all [GenMsg.result 3 5] stOne = some (st', rest) →
      st'.sim_pending = 0 ∧ ∀ kv ∈ st'.promises, Future.done kv.2 = true) :=
  C3_wait_all_pending stOne [GenMsg.result 3 5] 3 5 (by constructor <;> decide)
    (by constructor <;> decide)
